import Mathlib

set_option linter.unusedVariables false

/-!
Shallow embedding of `BE/services/firebase_service.py` (class `FirebaseService`):
a facade over Firebase Auth, Cloud Storage and Firestore offering CRUD plus a
simple owner query over "presentation" documents.

Modelling conventions:
* Python values stored in Firestore documents are modelled by the inductive
  `Value` (None, bool, int, string, list, dict, and the Firestore
  `SERVER_TIMESTAMP` sentinel).  Python dicts are association lists that keep
  insertion order; the Python-dict invariant "keys are unique" is an explicit
  hypothesis (`keysNodup`) where a proof needs it.
* The mutable outside world (the Firestore collection `presentations`, the
  storage bucket's object paths, the Auth user base and the set of valid ID
  tokens) is the structure `World`; a method that mutates it returns the new
  `World`.  Python's in-place mutation of a caller-supplied dict is modelled by
  returning the dict's final value alongside the result.
* Exceptions raised by the backend SDK are modelled by the `Faults` record:
  one flag per SDK entry point (and a per-path flag for blob deletion).  A
  `try/except` body that swallows the exception returns its sentinel when the
  corresponding flag is set; `create_presentation`, which re-raises, returns
  `Except.error`.
* `firestore.SERVER_TIMESTAMP` is resolved to the server clock value `now`
  (an `Int` parameter of each persisting operation) at write time.
* `str(uuid.uuid4())` is modelled by passing the drawn id `fresh : String` as a
  parameter; the platform guarantee that draws are fresh becomes a hypothesis.
-/

/-- Python runtime values as they occur in this service's documents. -/
inductive Value where
  | vnone : Value
  | bool (b : Bool) : Value
  | int (n : Int) : Value
  | str (s : String) : Value
  | list (vs : List Value) : Value
  | dict (kvs : List (String × Value)) : Value
  | serverTimestamp : Value
  deriving Repr

/-- A Python dict with string keys, as stored in Firestore documents. -/
abbrev Doc := List (String × Value)

/-- Python truthiness (`if x:`) for the values we model. -/
def Value.truthy : Value → Bool
  | .vnone => false
  | .bool b => b
  | .int n => n != 0
  | .str s => s != ""
  | .list vs => !vs.isEmpty
  | .dict kvs => !kvs.isEmpty
  | .serverTimestamp => true

/-- Python `d.get(k)`: `None` when the key is absent. -/
def dget : Doc → String → Value
  | [], _ => .vnone
  | (k', v) :: rest, k => if k' == k then v else dget rest k

/-- Python `d.get(k, default)`: the default only when the key is absent. -/
def dgetD : Doc → String → Value → Value
  | [], _, dflt => dflt
  | (k', v) :: rest, k, dflt => if k' == k then v else dgetD rest k dflt

/-- Python `k in d`. -/
def hasKey : Doc → String → Bool
  | [], _ => false
  | (k', _) :: rest, k => k' == k || hasKey rest k

/-- Python `d[k] = v`: overwrite in place, or append a new key at the end. -/
def dset : Doc → String → Value → Doc
  | [], k, v => [(k, v)]
  | (k', v') :: rest, k, v =>
      if k' == k then (k, v) :: rest else (k', v') :: dset rest k v

/-- The Python-dict invariant: keys occur at most once. -/
def keysNodup (d : Doc) : Prop := (d.map Prod.fst).Nodup

/-- Python `x == s` where `s` is a `str`: true only for an equal string. -/
def pyEqStr : Value → String → Bool
  | .str a, b => a == b
  | _, _ => false

/-- Association-list lookup, used for every keyed backend collection. -/
def alookup {α : Type} : List (String × α) → String → Option α
  | [], _ => none
  | (k', v) :: rest, k => if k' == k then some v else alookup rest k

/-- Firestore `document(id).set(doc)`: overwrite in place or append. -/
def aset {α : Type} : List (String × α) → String → α → List (String × α)
  | [], k, v => [(k, v)]
  | (k', v') :: rest, k, v =>
      if k' == k then (k, v) :: rest else (k', v') :: aset rest k v

/-- Firestore `document(id).delete()`. -/
def adel {α : Type} : List (String × α) → String → List (String × α)
  | [], _ => []
  | (k', v) :: rest, k => if k' == k then adel rest k else (k', v) :: adel rest k

/-- The outside state the facade acts on: the Firestore `presentations`
collection, the storage bucket's object paths, the Auth user base
(uid to profile attributes), and the set of currently valid ID tokens
(token to decoded claims). -/
structure World where
  presentations : List (String × Doc)
  assets : List String
  users : List (String × Doc)
  validTokens : List (String × Doc)

/-- Which backend SDK calls raise an exception.  One flag per entry point;
blob deletion may fail per storage path. -/
structure Faults where
  verifyTokenFails : Bool
  getUserFails : Bool
  customTokenFails : Bool
  uploadFails : Bool
  blobDeleteFails : String → Bool
  docGetFails : Bool
  docSetFails : Bool
  docUpdateFails : Bool
  docDeleteFails : Bool
  queryFails : Bool

/-- Every backend call raises. -/
def allFail : Faults :=
  ⟨true, true, true, true, fun _ => true, true, true, true, true, true⟩

/-- No backend call raises. -/
def noFail : Faults :=
  ⟨false, false, false, false, fun _ => false, false, false, false, false, false⟩

/-- Embeds `FirebaseService.verify_token`: `auth.verify_id_token` either
raises (invalid/expired token, or backend fault) — caught, `None` returned —
or yields the decoded claims. -/
def verify_token (w : World) (f : Faults) (id_token : String) : Option Doc :=
  if f.verifyTokenFails then none
  else alookup w.validTokens id_token

/-- Embeds `FirebaseService.get_user`: `auth.get_user` raises for an unknown
uid or on a backend fault — caught, `None` returned — otherwise the profile
dict is built from the user record's attributes. -/
def get_user (w : World) (f : Faults) (uid : String) : Option Doc :=
  if f.getUserFails then none
  else
    match alookup w.users uid with
    | none => none
    | some u =>
        some [("uid", .str uid),
              ("email", dget u "email"),
              ("display_name", dget u "display_name"),
              ("photo_url", dget u "photo_url"),
              ("email_verified", dget u "email_verified")]

/-- Modelled from the spec: the signed custom token minted by
`auth.create_custom_token(uid)` — an opaque token deterministically tied to
the uid (token-signing itself is out of scope per the spec's non-goals). -/
def mintedToken (uid : String) : String := "custom-token:" ++ uid

/-- Embeds `FirebaseService.create_custom_token`: returns the minted token, or
`None` when the backend raises. -/
def create_custom_token (f : Faults) (uid : String) : Option String :=
  if f.customTokenFails then none
  else some (mintedToken uid)

/-- Public URL of a bucket object, as produced by `blob.make_public()` /
`blob.public_url` for the hardcoded bucket. -/
def publicUrl (path : String) : String :=
  "https://storage.googleapis.com/fy-project-518d9.appspot.com/" ++ path

/-- Embeds `FirebaseService.upload_image`: writes the object at
`destination_path` (silently overwriting), makes it public and returns its
URL; on any failure returns `None` and leaves the bucket as it was. -/
def upload_image (w : World) (f : Faults) (image_path destination_path : String) :
    World × Option String :=
  if f.uploadFails then (w, none)
  else
    (⟨w.presentations,
      if w.assets.contains destination_path then w.assets
      else w.assets ++ [destination_path],
      w.users, w.validTokens⟩,
     some (publicUrl destination_path))

/-- Embeds `FirebaseService.upload_image_from_bytes`: same semantics as
`upload_image` but from an in-memory buffer. -/
def upload_image_from_bytes (w : World) (f : Faults) (image_bytes : List Nat)
    (destination_path : String) (content_type : String) : World × Option String :=
  if f.uploadFails then (w, none)
  else
    (⟨w.presentations,
      if w.assets.contains destination_path then w.assets
      else w.assets ++ [destination_path],
      w.users, w.validTokens⟩,
     some (publicUrl destination_path))

/-- Embeds `FirebaseService.delete_image`: `blob.delete()` raises when the
object does not exist or on a backend fault — caught, `False` returned —
otherwise the object is removed and `True` returned. -/
def delete_image (w : World) (f : Faults) (storage_path : String) : World × Bool :=
  if f.blobDeleteFails storage_path || !w.assets.contains storage_path then (w, false)
  else
    (⟨w.presentations, w.assets.erase storage_path, w.users, w.validTokens⟩, true)

/-- Python `len(x)`: defined for sequences and mappings, raises otherwise. -/
def pyLenE : Value → Except Unit Nat
  | .list vs => .ok vs.length
  | .str s => .ok s.length
  | .dict kvs => .ok kvs.length
  | _ => .error ()

/-- Server-side resolution of the `SERVER_TIMESTAMP` sentinel at write time:
the server clock value `now` replaces the sentinel, every other value is
stored as sent. -/
def resolveTS (now : Int) : Value → Value
  | .serverTimestamp => .int now
  | v => v

/-- The document `doc_data` built by `FirebaseService.create_presentation`
from the caller's `presentation_data`, before persistence. -/
def createDoc (ppt_id user_id : String) (presentation_data : Doc) (n : Nat) : Doc :=
  [("ppt_id", .str ppt_id),
   ("user_id", .str user_id),
   ("topic", dgetD presentation_data "topic" (.str "")),
   ("theme", dgetD presentation_data "theme" (.str "modern")),
   ("slides", dgetD presentation_data "slides" (.list [])),
   ("slide_count", .int n),
   ("created_at", .serverTimestamp),
   ("updated_at", .serverTimestamp),
   ("content_sources", dgetD presentation_data "content_sources" (.list [])),
   ("brand_colors", dget presentation_data "brand_colors")]

/-- Embeds `FirebaseService.create_presentation`: draws a fresh id
(`fresh` models `str(uuid.uuid4())`), builds `doc_data` with defaults applied
(`len` of a non-sequence `slides` value raises), persists it under the fresh
id with the server resolving the timestamp sentinels to `now`, and returns
the id.  This is the one operation whose `except` clause re-raises, so it
returns `Except`. -/
def create_presentation (w : World) (f : Faults) (fresh : String) (now : Int)
    (user_id : String) (presentation_data : Doc) : Except Unit (World × String) :=
  match pyLenE (dgetD presentation_data "slides" (.list [])) with
  | .error _ => .error ()
  | .ok n =>
      if f.docSetFails then .error ()
      else
        let stored := (createDoc fresh user_id presentation_data n).map
          (fun kv => (kv.1, resolveTS now kv.2))
        .ok (⟨aset w.presentations fresh stored, w.assets, w.users, w.validTokens⟩,
             fresh)

/-- Embeds `FirebaseService.get_presentation`: fetch by id; `None` when the
document does not exist or the backend raises; when a truthy `user_id` is
supplied and differs from the stored `user_id`, `None` as well. -/
def get_presentation (w : World) (f : Faults) (ppt_id : String)
    (user_id : Option String) : Option Doc :=
  if f.docGetFails then none
  else
    match alookup w.presentations ppt_id with
    | none => none
    | some data =>
        match user_id with
        | some uid =>
            if uid != "" && !pyEqStr (dget data "user_id") uid then none
            else some data
        | none => some data

/-- Firestore `doc_ref.update(updates)`: a shallow per-field overwrite of the
stored document, resolving timestamp sentinels to the server clock `now`. -/
def applyUpdates (d : Doc) (updates : Doc) (now : Int) : Doc :=
  updates.foldl (fun acc kv => dset acc kv.1 (resolveTS now kv.2)) d

/-- Embeds `FirebaseService.update_presentation`.  Returns the new world, the
final value of the caller's `updates` dict (the Python code mutates it in
place by `updates['updated_at'] = firestore.SERVER_TIMESTAMP`), and the
boolean result: `False` for a backend fault, a missing document or a
non-owner; `True` when the owner's patch is persisted. -/
def update_presentation (w : World) (f : Faults) (ppt_id user_id : String)
    (updates : Doc) (now : Int) : World × Doc × Bool :=
  if f.docGetFails then (w, updates, false)
  else
    match alookup w.presentations ppt_id with
    | none => (w, updates, false)
    | some data =>
        if !pyEqStr (dget data "user_id") user_id then (w, updates, false)
        else
          let updates' := dset updates "updated_at" .serverTimestamp
          if f.docUpdateFails then (w, updates', false)
          else
            (⟨aset w.presentations ppt_id (applyUpdates data updates' now),
              w.assets, w.users, w.validTokens⟩,
             updates', true)

/-- The image-cleanup loop of `FirebaseService.delete_presentation`:
`for slide in data.get('slides', []): if slide.get('image_storage_path'):
self.delete_image(slide['image_storage_path'])`.  Iterating a non-dict slide
raises (`slide.get` is not defined on it) — the returned flag is `false` and
the world keeps the deletions already performed; `delete_image` itself
swallows its own failures, including a non-string path, so those never abort
the loop. -/
def deleteSlideImages (f : Faults) : World → List Value → World × Bool
  | w, [] => (w, true)
  | w, .dict sd :: rest =>
      let v := dget sd "image_storage_path"
      if v.truthy then
        match v with
        | .str p => deleteSlideImages f (delete_image w f p).1 rest
        | _ => deleteSlideImages f w rest
      else deleteSlideImages f w rest
  | w, _ :: _ => (w, false)

/-- Embeds `FirebaseService.delete_presentation`: fetch, existence and
ownership checks as in `get`/`update`, then best-effort deletion of every
slide's stored image, then deletion of the document itself.  Any uncaught
exception (fetch fault, a non-iterable `slides` value, a non-dict slide, or
the final document-delete fault) yields `False`, keeping whatever image
deletions already happened. -/
def delete_presentation (w : World) (f : Faults) (ppt_id user_id : String) :
    World × Bool :=
  if f.docGetFails then (w, false)
  else
    match alookup w.presentations ppt_id with
    | none => (w, false)
    | some data =>
        if !pyEqStr (dget data "user_id") user_id then (w, false)
        else
          match dgetD data "slides" (.list []) with
          | .list slides =>
              match deleteSlideImages f w slides with
              | (w', false) => (w', false)
              | (w', true) =>
                  if f.docDeleteFails then (w', false)
                  else
                    (⟨adel w'.presentations ppt_id, w'.assets, w'.users,
                      w'.validTokens⟩, true)
          | _ => (w, false)

/-- The `created_at` sort key used by the Firestore query (documents reaching
the ordering step carry an integer `created_at`; anything else sorts as 0). -/
def createdAtInt (d : Doc) : Int :=
  match dget d "created_at" with
  | .int n => n
  | _ => 0

/-- Descending `created_at` order used for `order_by('created_at',
DESCENDING)`. -/
def createdDescR (a b : Doc) : Prop :=
  createdAtInt b ≤ createdAtInt a

instance : DecidableRel createdDescR :=
  fun a b => inferInstanceAs (Decidable (createdAtInt b ≤ createdAtInt a))

instance : IsTotal Doc createdDescR :=
  ⟨fun a b => le_total (createdAtInt b) (createdAtInt a)⟩

instance : IsTrans Doc createdDescR :=
  ⟨fun _ _ _ hab hbc => le_trans hbc hab⟩

/-- Whether a document has an integer `created_at` field; Firestore's
`order_by` drops documents lacking the ordered field from the result set. -/
def hasIntCreated (d : Doc) : Bool :=
  match dget d "created_at" with
  | .int _ => true
  | _ => false

/-- The Firestore query
`where('user_id','==',uid).order_by('created_at', DESCENDING).limit(limit)`
over the `presentations` collection. -/
def queryByOwner (c : List (String × Doc)) (uid : String) (limit : Nat) :
    List Doc :=
  (List.insertionSort createdDescR
      ((c.map Prod.snd).filter
        (fun d => pyEqStr (dget d "user_id") uid && hasIntCreated d))).take limit

/-- The thumbnail expression of `FirebaseService.get_user_presentations`:
`data.get('slides', [{}])[0].get('image_url') if data.get('slides') else
None`.  A truthy `slides` that is not a list, or whose first element is not a
dict, raises. -/
def thumbnailE (data : Doc) : Except Unit Value :=
  if (dget data "slides").truthy then
    match dget data "slides" with
    | .list (.dict sd :: _) => .ok (dget sd "image_url")
    | _ => .error ()
  else .ok .vnone

/-- The summary dict `get_user_presentations` builds for one document, given
the already-computed thumbnail value. -/
def summaryDoc (data : Doc) (th : Value) : Doc :=
  [("ppt_id", dget data "ppt_id"),
   ("topic", dget data "topic"),
   ("theme", dget data "theme"),
   ("slide_count", dgetD data "slide_count" (.int 0)),
   ("created_at", dget data "created_at"),
   ("updated_at", dget data "updated_at"),
   ("thumbnail", th)]

/-- One iteration of the summary loop: raises exactly when the thumbnail
expression raises. -/
def summarizeE (data : Doc) : Except Unit Doc :=
  match thumbnailE data with
  | .error e => .error e
  | .ok th => .ok (summaryDoc data th)

/-- Embeds `FirebaseService.get_user_presentations`: runs the owner query and
projects each document to its summary; any exception — a query fault or a
raise inside the loop — is caught and the empty list returned. -/
def get_user_presentations (w : World) (f : Faults) (user_id : String)
    (limit : Nat) : List Doc :=
  if f.queryFails then []
  else
    match (queryByOwner w.presentations user_id limit).mapM summarizeE with
    | .ok l => l
    | .error _ => []

/-- Whether a Python value is a dict (the well-formed shape of one slide). -/
def isDict : Value → Bool
  | .dict _ => true
  | _ => false

/-- Thumbnail value of a document on the non-raising path (`vnone` on the
raising path, where it is never used). -/
def thumbDefault (d : Doc) : Value :=
  match thumbnailE d with
  | .ok th => th
  | .error _ => .vnone
/-- Whether the thumbnail expression evaluates without raising on a document. -/
def thumbOk (d : Doc) : Bool :=
  match thumbnailE d with
  | .ok _ => true
  | .error _ => false

/-- A concrete stored slide used to instantiate the theorems below. -/
def sampleSlide : Doc :=
  [("image_url", .str "https://img/u1"), ("image_storage_path", .str "p1")]

/-- A concrete stored presentation document owned by `"alice"`. -/
def sampleDoc : Doc :=
  [("ppt_id", .str "id1"), ("user_id", .str "alice"), ("topic", .str "t"),
   ("theme", .str "modern"), ("slides", .list [.dict sampleSlide]),
   ("slide_count", .int 1), ("created_at", .int 5), ("updated_at", .int 5),
   ("content_sources", .list []), ("brand_colors", .vnone)]

/-- A concrete world holding `sampleDoc` and two stored assets. -/
def sampleWorld : World :=
  ⟨[("id1", sampleDoc)], ["p1", "p2"], [], []⟩

theorem dget_dset_self (d : Doc) (k : String) (v : Value) :
    dget (dset d k v) k = v := by
  induction d with
  | nil => simp [dset, dget]
  | cons kv rest ih =>
      obtain ⟨k', v'⟩ := kv
      by_cases h : k' = k
      · subst h
        simp [dset, dget]
      · simp [dset, dget, h, ih]

theorem dget_dset_ne (d : Doc) (k k' : String) (v : Value) (h : k' ≠ k) :
    dget (dset d k' v) k = dget d k := by
  induction d with
  | nil => simp [dset, dget, h]
  | cons kv rest ih =>
      obtain ⟨a, b⟩ := kv
      by_cases ha : a = k'
      · subst ha
        simp [dset, dget, h, ih]
      · simp [dset, dget, ha, ih]

theorem hasKey_dset (d : Doc) (k k' : String) (v : Value) :
    hasKey (dset d k' v) k = (k' == k || hasKey d k) := by
  induction d with
  | nil => simp [dset, hasKey]
  | cons kv rest ih =>
      obtain ⟨a, b⟩ := kv
      by_cases ha : a = k'
      · subst ha
        simp [dset, hasKey]
      · simp [dset, hasKey, ha, ih]
        cases hak : (a == k) <;> cases hk : (k' == k) <;> simp

theorem hasKey_eq_true_iff (d : Doc) (k : String) :
    hasKey d k = true ↔ k ∈ d.map Prod.fst := by
  induction d with
  | nil => simp [hasKey]
  | cons kv rest ih =>
      obtain ⟨a, b⟩ := kv
      simp only [hasKey, List.map_cons, List.mem_cons, Bool.or_eq_true_iff,
        beq_iff_eq, ih]
      constructor
      · rintro (h | h)
        · exact Or.inl h.symm
        · exact Or.inr h
      · rintro (h | h)
        · exact Or.inl h.symm
        · exact Or.inr h

theorem keysNodup_dset (d : Doc) (k : String) (v : Value)
    (h : keysNodup d) : keysNodup (dset d k v) := by
  induction d with
  | nil => simp [keysNodup, dset]
  | cons kv rest ih =>
      obtain ⟨a, b⟩ := kv
      simp only [keysNodup, List.map_cons, List.nodup_cons] at h
      by_cases ha : a = k
      · subst ha
        simpa [keysNodup, dset] using h
      · have hrest := ih h.2
        simp only [dset, beq_iff_eq, ha, if_false]
        simp only [keysNodup, List.map_cons, List.nodup_cons]
        refine ⟨?_, hrest⟩
        intro hmem
        have : a ∈ (dset rest k v).map Prod.fst := hmem
        have hk : hasKey (dset rest k v) a = true :=
          (hasKey_eq_true_iff _ _).mpr this
        rw [hasKey_dset] at hk
        rcases Bool.or_eq_true_iff.mp hk with h1 | h2
        · exact ha (beq_iff_eq.mp h1).symm
        · exact h.1 ((hasKey_eq_true_iff _ _).mp h2)

theorem dgetD_of_hasKey_false (d : Doc) (k : String) (dflt : Value)
    (h : hasKey d k = false) : dgetD d k dflt = dflt := by
  induction d with
  | nil => simp [dgetD]
  | cons kv rest ih =>
      obtain ⟨a, b⟩ := kv
      simp only [hasKey, Bool.or_eq_false_iff] at h
      simp [dgetD, h.1, ih h.2]

theorem alookup_aset_self {α : Type} (c : List (String × α)) (k : String) (v : α) :
    alookup (aset c k v) k = some v := by
  induction c with
  | nil => simp [aset, alookup]
  | cons kv rest ih =>
      obtain ⟨a, b⟩ := kv
      by_cases ha : a = k
      · subst ha
        simp [aset, alookup]
      · simp [aset, alookup, ha, ih]

theorem alookup_adel_self {α : Type} (c : List (String × α)) (k : String) :
    alookup (adel c k) k = none := by
  induction c with
  | nil => simp [adel, alookup]
  | cons kv rest ih =>
      obtain ⟨a, b⟩ := kv
      by_cases ha : a = k
      · simp [adel, alookup, ha, ih]
      · simp [adel, alookup, ha, ih]

theorem applyUpdates_cons (d : Doc) (kv : String × Value) (us : Doc) (now : Int) :
    applyUpdates d (kv :: us) now
      = applyUpdates (dset d kv.1 (resolveTS now kv.2)) us now := rfl

theorem dget_applyUpdates_of_hasKey_false (us : Doc) (d : Doc) (k : String)
    (now : Int) (h : hasKey us k = false) :
    dget (applyUpdates d us now) k = dget d k := by
  induction us generalizing d with
  | nil => rfl
  | cons kv rest ih =>
      obtain ⟨a, b⟩ := kv
      simp only [hasKey, Bool.or_eq_false_iff] at h
      have hak : a ≠ k := by
        intro e
        rw [e] at h
        simp at h
      rw [applyUpdates_cons, ih _ h.2, dget_dset_ne _ _ _ _ hak]

theorem dget_applyUpdates_of_hasKey_true (us : Doc) (d : Doc) (k : String)
    (now : Int) (hnd : keysNodup us) (h : hasKey us k = true) :
    dget (applyUpdates d us now) k = resolveTS now (dget us k) := by
  induction us generalizing d with
  | nil => simp [hasKey] at h
  | cons kv rest ih =>
      obtain ⟨a, b⟩ := kv
      simp only [keysNodup, List.map_cons, List.nodup_cons] at hnd
      by_cases ha : a = k
      · subst ha
        have hrest : hasKey rest a = false := by
          cases hr : hasKey rest a
          · rfl
          · exact absurd ((hasKey_eq_true_iff _ _).mp hr) hnd.1
        rw [applyUpdates_cons, dget_applyUpdates_of_hasKey_false _ _ _ _ hrest]
        simp [dget, dget_dset_self]
      · simp only [hasKey, Bool.or_eq_true_iff] at h
        rcases h with h1 | h2
        · exact absurd (beq_iff_eq.mp h1) ha
        · rw [applyUpdates_cons, ih _ hnd.2 h2]
          simp [dget, ha]

theorem delete_image_presentations (w : World) (f : Faults) (p : String) :
    (delete_image w f p).1.presentations = w.presentations := by
  unfold delete_image
  split <;> rfl

theorem delete_image_not_mem_assets (w : World) (f : Faults) (p q : String)
    (h : q ∉ w.assets) : q ∉ (delete_image w f p).1.assets := by
  unfold delete_image
  split
  · exact h
  · exact fun hm => h (List.mem_of_mem_erase hm)

theorem delete_image_nodup_assets (w : World) (f : Faults) (p : String)
    (h : w.assets.Nodup) : (delete_image w f p).1.assets.Nodup := by
  unfold delete_image
  split
  · exact h
  · exact h.erase p

theorem delete_image_removes (w : World) (f : Faults) (p : String)
    (hnd : w.assets.Nodup) (hf : f.blobDeleteFails p = false) :
    p ∉ (delete_image w f p).1.assets := by
  unfold delete_image
  rw [hf]
  by_cases hm : w.assets.contains p
  · simp only [hm, Bool.false_or, Bool.not_true, if_neg Bool.false_ne_true]
    exact hnd.not_mem_erase
  · simp only [Bool.not_eq_true] at hm
    simp only [hm, Bool.false_or, Bool.not_false, if_pos rfl]
    simpa using hm

theorem deleteSlideImages_presentations (f : Faults) (ss : List Value)
    (w : World) :
    (deleteSlideImages f w ss).1.presentations = w.presentations := by
  induction ss generalizing w with
  | nil => rfl
  | cons s rest ih =>
      cases s with
      | dict sd =>
          simp only [deleteSlideImages]
          split
          · split
            · rw [ih, delete_image_presentations]
            · exact ih w
          · exact ih w
      | vnone => rfl
      | bool b => rfl
      | int n => rfl
      | str s => rfl
      | list vs => rfl
      | serverTimestamp => rfl

theorem deleteSlideImages_ok (f : Faults) (ss : List Value) (w : World)
    (h : ss.all isDict = true) : (deleteSlideImages f w ss).2 = true := by
  induction ss generalizing w with
  | nil => rfl
  | cons s rest ih =>
      simp only [List.all_cons, Bool.and_eq_true] at h
      cases s with
      | dict sd =>
          simp only [deleteSlideImages]
          split
          · split
            · exact ih _ h.2
            · exact ih _ h.2
          · exact ih _ h.2
      | vnone => simp [isDict] at h
      | bool b => simp [isDict] at h
      | int n => simp [isDict] at h
      | str s => simp [isDict] at h
      | list vs => simp [isDict] at h
      | serverTimestamp => simp [isDict] at h

theorem deleteSlideImages_not_mem (f : Faults) (ss : List Value) (w : World)
    (p : String) (h : p ∉ w.assets) :
    p ∉ (deleteSlideImages f w ss).1.assets := by
  induction ss generalizing w with
  | nil => exact h
  | cons s rest ih =>
      cases s with
      | dict sd =>
          simp only [deleteSlideImages]
          split
          · split
            · exact ih _ (delete_image_not_mem_assets _ _ _ _ h)
            · exact ih _ h
          · exact ih _ h
      | vnone => exact h
      | bool b => exact h
      | int n => exact h
      | str s => exact h
      | list vs => exact h
      | serverTimestamp => exact h

theorem deleteSlideImages_nodup (f : Faults) (ss : List Value) (w : World)
    (h : w.assets.Nodup) : (deleteSlideImages f w ss).1.assets.Nodup := by
  induction ss generalizing w with
  | nil => exact h
  | cons s rest ih =>
      cases s with
      | dict sd =>
          simp only [deleteSlideImages]
          split
          · split
            · exact ih _ (delete_image_nodup_assets _ _ _ h)
            · exact ih _ h
          · exact ih _ h
      | vnone => exact h
      | bool b => exact h
      | int n => exact h
      | str s => exact h
      | list vs => exact h
      | serverTimestamp => exact h

theorem deleteSlideImages_removes (f : Faults) (ss : List Value) (w : World)
    (sd : List (String × Value)) (p : String)
    (hall : ss.all isDict = true)
    (hnd : w.assets.Nodup)
    (hmem : Value.dict sd ∈ ss)
    (hpath : dget sd "image_storage_path" = .str p)
    (hp : p ≠ "")
    (hf : f.blobDeleteFails p = false) :
    p ∉ (deleteSlideImages f w ss).1.assets := by
  induction ss generalizing w with
  | nil => simp at hmem
  | cons s rest ih =>
      simp only [List.all_cons, Bool.and_eq_true] at hall
      rcases List.mem_cons.mp hmem with heq | hrest
      · subst heq
        simp only [deleteSlideImages]
        have htr : (dget sd "image_storage_path").truthy = true := by
          rw [hpath]
          simpa [Value.truthy] using hp
        rw [hpath] at htr ⊢
        simp only [htr, if_pos rfl]
        exact deleteSlideImages_not_mem f rest _ p
          (delete_image_removes w f p hnd hf)
      · cases s with
        | dict sd' =>
            simp only [deleteSlideImages]
            split
            · split
              · exact ih _ hall.2 (delete_image_nodup_assets _ _ _ hnd) hrest
              · exact ih _ hall.2 hnd hrest
            · exact ih _ hall.2 hnd hrest
        | vnone => simp [isDict] at hall
        | bool b => simp [isDict] at hall
        | int n => simp [isDict] at hall
        | str s => simp [isDict] at hall
        | list vs => simp [isDict] at hall
        | serverTimestamp => simp [isDict] at hall


theorem thumbnailE_eq_of_thumbOk (d : Doc) (h : thumbOk d = true) :
    thumbnailE d = .ok (thumbDefault d) := by
  unfold thumbOk at h
  unfold thumbDefault
  cases ht : thumbnailE d with
  | ok th => rfl
  | error e => rw [ht] at h; simp at h

theorem mapM_summarizeE_ok (l : List Doc)
    (h : ∀ d ∈ l, thumbOk d = true) :
    l.mapM summarizeE
      = .ok (l.map (fun d => summaryDoc d (thumbDefault d))) := by
  induction l with
  | nil => rfl
  | cons d rest ih =>
      have hd : summarizeE d = .ok (summaryDoc d (thumbDefault d)) := by
        unfold summarizeE
        rw [thumbnailE_eq_of_thumbOk d (h d (List.mem_cons_self d rest))]
      rw [List.mapM_cons, hd, ih (fun x hx => h x (List.mem_cons_of_mem d hx))]
      rfl

/-- C1: for every presentation id and every non-empty `requester_id`,
`get_presentation` returns the same not-found sentinel (`none`) both when the
record does not exist and when it exists but its stored `user_id` differs
from the requester — the two cases are response-indistinguishable. -/
theorem get_notfound_indistinguishable (w : World) (f : Faults)
    (ppt_id s : String) (hs : s ≠ "") :
    (alookup w.presentations ppt_id = none →
      get_presentation w f ppt_id (some s) = none) ∧
    (∀ data, alookup w.presentations ppt_id = some data →
      pyEqStr (dget data "user_id") s = false →
      get_presentation w f ppt_id (some s) = none) := by
  constructor
  · intro h
    unfold get_presentation
    cases hf : f.docGetFails <;> simp [h]
  · intro data hd hne
    unfold get_presentation
    cases hf : f.docGetFails <;> simp [hd, hne, hs]

/-- Witness for C1 at a concrete world: a missing id and an existing id owned
by someone else produce the identical `none` response for requester "bob". -/
theorem get_notfound_indistinguishable_witness :
    get_presentation sampleWorld noFail "missing" (some "bob") = none ∧
    get_presentation sampleWorld noFail "id1" (some "bob") = none :=
  ⟨(get_notfound_indistinguishable sampleWorld noFail "missing" "bob"
      (by decide)).1 (by rfl),
   (get_notfound_indistinguishable sampleWorld noFail "id1" "bob"
      (by decide)).2 sampleDoc (by rfl) (by rfl)⟩

/-- C8: for every existing record, a falsy `requester_id` (`None` or the
empty string) makes `get_presentation` skip the ownership comparison and
return the record regardless of its stored owner. -/
theorem get_falsy_requester_skips_ownership (w : World) (f : Faults)
    (ppt_id : String) (data : Doc) (hf : f.docGetFails = false)
    (hd : alookup w.presentations ppt_id = some data) :
    get_presentation w f ppt_id none = some data ∧
    get_presentation w f ppt_id (some "") = some data := by
  unfold get_presentation
  simp [hf, hd]

/-- Witness for C8: the sample record is returned both for requester `None`
and for requester `""`, although its owner is "alice". -/
theorem get_falsy_requester_skips_ownership_witness :
    get_presentation sampleWorld noFail "id1" none = some sampleDoc ∧
    get_presentation sampleWorld noFail "id1" (some "") = some sampleDoc :=
  get_falsy_requester_skips_ownership sampleWorld noFail "id1" sampleDoc
    (by rfl) (by rfl)

/-- C2: a successful `create_presentation` with a slides list of length N
stores a record whose `slide_count` is N, whose `topic` defaults to the empty
string and `theme` to "modern" when absent from the input, whose two
timestamps are server-assigned (`now`), and returns the freshly drawn id —
distinct from every previously drawn id by the uuid freshness guarantee —
under which the record is stored. -/
theorem create_stores_record_with_defaults (w : World) (f : Faults)
    (fresh : String) (now : Int) (user_id : String) (presentation_data : Doc)
    (slides : List Value) (prevIds : List String)
    (hslides : dgetD presentation_data "slides" (.list []) = .list slides)
    (hset : f.docSetFails = false)
    (hfresh : fresh ∉ prevIds) :
    ∃ w', create_presentation w f fresh now user_id presentation_data
        = .ok (w', fresh) ∧
      fresh ∉ prevIds ∧
      ∃ doc, alookup w'.presentations fresh = some doc ∧
        dget doc "ppt_id" = .str fresh ∧
        dget doc "slide_count" = .int slides.length ∧
        (hasKey presentation_data "topic" = false →
          dget doc "topic" = .str "") ∧
        (hasKey presentation_data "theme" = false →
          dget doc "theme" = .str "modern") ∧
        dget doc "created_at" = .int now ∧
        dget doc "updated_at" = .int now := by
  unfold create_presentation
  rw [hslides]
  simp only [pyLenE, hset, Bool.false_eq_true, if_false]
  refine ⟨_, rfl, hfresh, _, alookup_aset_self _ _ _, ?_, ?_, ?_, ?_, ?_, ?_⟩
  · rfl
  · rfl
  · intro h
    show resolveTS now (dgetD presentation_data "topic" (.str "")) = .str ""
    rw [dgetD_of_hasKey_false _ _ _ h]
    rfl
  · intro h
    show resolveTS now (dgetD presentation_data "theme" (.str "modern"))
        = .str "modern"
    rw [dgetD_of_hasKey_false _ _ _ h]
    rfl
  · rfl
  · rfl

/-- Witness for C2: creating with one slide stores `slide_count = 1`, default
topic and theme, both timestamps 7, under the fresh id "fresh-id". -/
theorem create_stores_record_with_defaults_witness :
    ∃ w', create_presentation sampleWorld noFail "fresh-id" 7 "carol"
        [("slides", .list [.dict []])] = .ok (w', "fresh-id") ∧
      "fresh-id" ∉ ["id1"] ∧
      ∃ doc, alookup w'.presentations "fresh-id" = some doc ∧
        dget doc "ppt_id" = .str "fresh-id" ∧
        dget doc "slide_count" = .int [Value.dict []].length ∧
        (hasKey [("slides", Value.list [.dict []])] "topic" = false →
          dget doc "topic" = .str "") ∧
        (hasKey [("slides", Value.list [.dict []])] "theme" = false →
          dget doc "theme" = .str "modern") ∧
        dget doc "created_at" = .int 7 ∧
        dget doc "updated_at" = .int 7 :=
  create_stores_record_with_defaults sampleWorld noFail "fresh-id" 7 "carol"
    [("slides", .list [.dict []])] [.dict []] ["id1"]
    (by rfl) (by rfl) (by decide)

/-- C9: the record stored by `create_presentation` carries exactly the ten
keys built in `doc_data`, its `user_id` is always the owner argument and its
`ppt_id` always the freshly generated id — `user_id` or `ppt_id` keys inside
the caller's data are ignored and cannot forge ownership or identity. -/
theorem create_record_exact_keys_no_forgery (w : World) (f : Faults)
    (fresh : String) (now : Int) (user_id : String) (presentation_data : Doc)
    (n : Nat)
    (hlen : pyLenE (dgetD presentation_data "slides" (.list [])) = .ok n)
    (hset : f.docSetFails = false) :
    ∃ w', create_presentation w f fresh now user_id presentation_data
        = .ok (w', fresh) ∧
      ∃ doc, alookup w'.presentations fresh = some doc ∧
        doc.map Prod.fst = ["ppt_id", "user_id", "topic", "theme", "slides",
          "slide_count", "created_at", "updated_at", "content_sources",
          "brand_colors"] ∧
        dget doc "user_id" = .str user_id ∧
        dget doc "ppt_id" = .str fresh := by
  unfold create_presentation
  rw [hlen]
  simp only [hset, Bool.false_eq_true, if_false]
  exact ⟨_, rfl, _, alookup_aset_self _ _ _, rfl, rfl, rfl⟩

/-- Witness for C9: data trying to smuggle `user_id` "mallory" and `ppt_id`
"forged" still yields a record keyed by the fresh id and owned by "carol". -/
theorem create_record_exact_keys_no_forgery_witness :
    ∃ w', create_presentation sampleWorld noFail "fresh2" 7 "carol"
        [("user_id", .str "mallory"), ("ppt_id", .str "forged")]
        = .ok (w', "fresh2") ∧
      ∃ doc, alookup w'.presentations "fresh2" = some doc ∧
        doc.map Prod.fst = ["ppt_id", "user_id", "topic", "theme", "slides",
          "slide_count", "created_at", "updated_at", "content_sources",
          "brand_colors"] ∧
        dget doc "user_id" = .str "carol" ∧
        dget doc "ppt_id" = .str "fresh2" :=
  create_record_exact_keys_no_forgery sampleWorld noFail "fresh2" 7 "carol"
    [("user_id", .str "mallory"), ("ppt_id", .str "forged")] 0
    (by rfl) (by rfl)

/-- C3: `update_presentation` returns `False` when the record does not exist,
when the requester is not the owner, and when the backend raises; it returns
`True` exactly when the requester owns an existing record and persistence
succeeds, and in that case `updated_at` is stamped to the server clock `now`,
which is at least the previous `updated_at` under the server-clock
monotonicity assumption `t ≤ now`. -/
theorem update_result_semantics (w : World) (f : Faults) (ppt_id user_id : String)
    (updates : Doc) (now : Int) :
    (alookup w.presentations ppt_id = none →
      (update_presentation w f ppt_id user_id updates now).2.2 = false) ∧
    (∀ data, alookup w.presentations ppt_id = some data →
      pyEqStr (dget data "user_id") user_id = false →
      (update_presentation w f ppt_id user_id updates now).2.2 = false) ∧
    ((f.docGetFails = true ∨ f.docUpdateFails = true) →
      (update_presentation w f ppt_id user_id updates now).2.2 = false) ∧
    ((update_presentation w f ppt_id user_id updates now).2.2 = true ↔
      f.docGetFails = false ∧ f.docUpdateFails = false ∧
      ∃ data, alookup w.presentations ppt_id = some data ∧
        pyEqStr (dget data "user_id") user_id = true) ∧
    (∀ data t, f.docGetFails = false → f.docUpdateFails = false →
      alookup w.presentations ppt_id = some data →
      pyEqStr (dget data "user_id") user_id = true →
      keysNodup updates →
      dget data "updated_at" = .int t → t ≤ now →
      ∃ doc', alookup (update_presentation w f ppt_id user_id updates
          now).1.presentations ppt_id = some doc' ∧
        dget doc' "updated_at" = .int now ∧ t ≤ now) := by
  refine ⟨?_, ?_, ?_, ?_, ?_⟩
  · intro h
    unfold update_presentation
    cases hg : f.docGetFails <;> simp [h]
  · intro data hd ho
    unfold update_presentation
    cases hg : f.docGetFails <;> simp [hd, ho]
  · rintro (h | h) <;> unfold update_presentation
    · simp [h]
    · cases hg : f.docGetFails
      · simp only [Bool.false_eq_true, if_false]
        cases hd : alookup w.presentations ppt_id with
        | none => simp
        | some data =>
            simp only [hd, h, if_true]
            split <;> rfl
      · simp
  · unfold update_presentation
    cases hg : f.docGetFails
    · simp only [Bool.false_eq_true, if_false]
      cases hd : alookup w.presentations ppt_id with
      | none => simp
      | some data =>
          cases ho : pyEqStr (dget data "user_id") user_id
          · simp [ho]
          · cases hu : f.docUpdateFails <;> simp [ho, hu]
    · simp [hg]
  · intro data t hg hu hd ho hnd hup hle
    unfold update_presentation
    simp only [hg, hu, hd, ho, Bool.false_eq_true, if_false, Bool.not_true]
    refine ⟨_, alookup_aset_self _ _ _, ?_, hle⟩
    have hnd' : keysNodup (dset updates "updated_at" .serverTimestamp) :=
      keysNodup_dset _ _ _ hnd
    have hk : hasKey (dset updates "updated_at" .serverTimestamp) "updated_at"
        = true := by
      rw [hasKey_dset]
      simp
    rw [dget_applyUpdates_of_hasKey_true _ _ _ _ hnd' hk, dget_dset_self]
    rfl

/-- Witness for C3: a missing id, a non-owner and an all-faults backend all
yield `False`, while the owner's update succeeds and stamps `updated_at` from
5 to 9. -/
theorem update_result_semantics_witness :
    (update_presentation sampleWorld noFail "missing" "alice"
        [("topic", .str "x")] 9).2.2 = false ∧
    (update_presentation sampleWorld noFail "id1" "bob"
        [("topic", .str "x")] 9).2.2 = false ∧
    (update_presentation sampleWorld allFail "id1" "alice"
        [("topic", .str "x")] 9).2.2 = false ∧
    (update_presentation sampleWorld noFail "id1" "alice"
        [("topic", .str "x")] 9).2.2 = true ∧
    (∃ doc', alookup (update_presentation sampleWorld noFail "id1" "alice"
          [("topic", .str "x")] 9).1.presentations "id1" = some doc' ∧
      dget doc' "updated_at" = .int 9 ∧ (5 : Int) ≤ 9) :=
  ⟨(update_result_semantics sampleWorld noFail "missing" "alice"
      [("topic", .str "x")] 9).1 (by rfl),
   (update_result_semantics sampleWorld noFail "id1" "bob"
      [("topic", .str "x")] 9).2.1 sampleDoc (by rfl) (by rfl),
   (update_result_semantics sampleWorld allFail "id1" "alice"
      [("topic", .str "x")] 9).2.2.1 (Or.inl rfl),
   ((update_result_semantics sampleWorld noFail "id1" "alice"
      [("topic", .str "x")] 9).2.2.2.1).mpr
      ⟨rfl, rfl, sampleDoc, by rfl, by rfl⟩,
   (update_result_semantics sampleWorld noFail "id1" "alice"
      [("topic", .str "x")] 9).2.2.2.2 sampleDoc 5 rfl rfl (by rfl) (by rfl)
      (by unfold keysNodup; decide) (by rfl) (by decide)⟩

/-- C7: a successful update is a shallow per-field overwrite — every stored
field whose key is not in the patch (other than `updated_at`) keeps its
previous value; in particular a patch that changes `slides` without passing
`slide_count` leaves `slide_count` at its previous value, not recomputed. -/
theorem update_shallow_merge_frame (w : World) (f : Faults)
    (ppt_id user_id : String) (updates : Doc) (now : Int) (data : Doc)
    (hg : f.docGetFails = false) (hu : f.docUpdateFails = false)
    (hd : alookup w.presentations ppt_id = some data)
    (howner : pyEqStr (dget data "user_id") user_id = true) :
    ∃ doc', alookup (update_presentation w f ppt_id user_id updates
        now).1.presentations ppt_id = some doc' ∧
      (∀ k, hasKey updates k = false → k ≠ "updated_at" →
        dget doc' k = dget data k) ∧
      (hasKey updates "slide_count" = false →
        dget doc' "slide_count" = dget data "slide_count") := by
  unfold update_presentation
  simp only [hg, hu, hd, howner, Bool.false_eq_true, if_false, Bool.not_true]
  refine ⟨_, alookup_aset_self _ _ _, ?_, ?_⟩
  · intro k hk hne
    have hk' : hasKey (dset updates "updated_at" .serverTimestamp) k = false := by
      rw [hasKey_dset, hk]
      simpa using fun e => hne e.symm
    exact dget_applyUpdates_of_hasKey_false _ _ _ _ hk'
  · intro hk
    have hk' : hasKey (dset updates "updated_at" .serverTimestamp)
        "slide_count" = false := by
      rw [hasKey_dset, hk]
      decide
    exact dget_applyUpdates_of_hasKey_false _ _ _ _ hk'

/-- Witness for C7: updating only `slides` leaves `slide_count` (1) and
`topic` at their previous values. -/
theorem update_shallow_merge_frame_witness :
    ∃ doc', alookup (update_presentation sampleWorld noFail "id1" "alice"
        [("slides", .list [])] 9).1.presentations "id1" = some doc' ∧
      dget doc' "slide_count" = dget sampleDoc "slide_count" ∧
      dget doc' "topic" = dget sampleDoc "topic" := by
  obtain ⟨doc', h1, h2, h3⟩ := update_shallow_merge_frame sampleWorld noFail
    "id1" "alice" [("slides", .list [])] 9 sampleDoc rfl rfl (by rfl) (by rfl)
  exact ⟨doc', h1, h3 (by rfl), h2 "topic" (by rfl) (by decide)⟩

/-- C10: `update_presentation` mutates the caller's patch dict: on the path
where the record exists and the requester is the owner it inserts the
`updated_at` key (with the server-timestamp sentinel) into the caller's dict
before persisting; on the not-found and not-owned paths the caller's dict is
left unmodified. -/
theorem update_mutates_caller_patch (w : World) (f : Faults)
    (ppt_id user_id : String) (updates : Doc) (now : Int) :
    (f.docGetFails = true →
      (update_presentation w f ppt_id user_id updates now).2.1 = updates) ∧
    (alookup w.presentations ppt_id = none →
      (update_presentation w f ppt_id user_id updates now).2.1 = updates) ∧
    (∀ data, alookup w.presentations ppt_id = some data →
      pyEqStr (dget data "user_id") user_id = false →
      (update_presentation w f ppt_id user_id updates now).2.1 = updates) ∧
    (∀ data, f.docGetFails = false →
      alookup w.presentations ppt_id = some data →
      pyEqStr (dget data "user_id") user_id = true →
      (update_presentation w f ppt_id user_id updates now).2.1
          = dset updates "updated_at" .serverTimestamp ∧
      hasKey (update_presentation w f ppt_id user_id updates now).2.1
          "updated_at" = true) := by
  refine ⟨?_, ?_, ?_, ?_⟩
  · intro h
    unfold update_presentation
    simp [h]
  · intro h
    unfold update_presentation
    cases hg : f.docGetFails <;> simp [h]
  · intro data hd ho
    unfold update_presentation
    cases hg : f.docGetFails <;> simp [hd, ho]
  · intro data hg hd ho
    unfold update_presentation
    simp only [hg, hd, ho, Bool.false_eq_true, if_false, Bool.not_true]
    have hk : hasKey (dset updates "updated_at" .serverTimestamp)
        "updated_at" = true := by
      rw [hasKey_dset]
      simp
    cases hu : f.docUpdateFails <;> simp [hk]

/-- Witness for C10: the owner's patch gains the `updated_at` sentinel, while
a non-owner's and a not-found call leave the patch dict untouched. -/
theorem update_mutates_caller_patch_witness :
    (update_presentation sampleWorld noFail "id1" "alice"
        [("topic", .str "x")] 9).2.1
      = dset [("topic", .str "x")] "updated_at" .serverTimestamp ∧
    (update_presentation sampleWorld noFail "id1" "bob"
        [("topic", .str "x")] 9).2.1 = [("topic", .str "x")] ∧
    (update_presentation sampleWorld noFail "missing" "alice"
        [("topic", .str "x")] 9).2.1 = [("topic", .str "x")] :=
  ⟨((update_mutates_caller_patch sampleWorld noFail "id1" "alice"
      [("topic", .str "x")] 9).2.2.2 sampleDoc rfl (by rfl) (by rfl)).1,
   (update_mutates_caller_patch sampleWorld noFail "id1" "bob"
      [("topic", .str "x")] 9).2.2.1 sampleDoc (by rfl) (by rfl),
   (update_mutates_caller_patch sampleWorld noFail "missing" "alice"
      [("topic", .str "x")] 9).2.1 (by rfl)⟩

/-- C4: for a record owned by the requester, `delete_presentation` deletes
the stored image of every well-formed slide that carries a truthy
`image_storage_path` (best-effort: other paths' deletions may fail without
aborting), removes the record itself, and a subsequent `get_presentation` by
the same owner returns not-found. -/
theorem delete_removes_record_and_assets (w : World) (f : Faults)
    (ppt_id user_id : String) (data : Doc) (slides : List Value)
    (hg : f.docGetFails = false) (hdel : f.docDeleteFails = false)
    (hd : alookup w.presentations ppt_id = some data)
    (howner : pyEqStr (dget data "user_id") user_id = true)
    (hslides : dgetD data "slides" (.list []) = .list slides)
    (hall : slides.all isDict = true)
    (hnd : w.assets.Nodup) :
    (delete_presentation w f ppt_id user_id).2 = true ∧
    alookup (delete_presentation w f ppt_id user_id).1.presentations ppt_id
      = none ∧
    get_presentation (delete_presentation w f ppt_id user_id).1 f ppt_id
      (some user_id) = none ∧
    (∀ sd p, Value.dict sd ∈ slides →
      dget sd "image_storage_path" = .str p → p ≠ "" →
      f.blobDeleteFails p = false →
      p ∉ (delete_presentation w f ppt_id user_id).1.assets) := by
  have hok : (deleteSlideImages f w slides).2 = true :=
    deleteSlideImages_ok f slides w hall
  have hr : deleteSlideImages f w slides
      = ((deleteSlideImages f w slides).1, true) := by
    rw [← hok]
  unfold delete_presentation
  simp only [hg, Bool.false_eq_true, if_false, hd, howner, Bool.not_true,
    hslides, hdel]
  rw [hr]
  refine ⟨rfl, alookup_adel_self _ _, ?_, ?_⟩
  · unfold get_presentation
    simp [hg, alookup_adel_self]
  · intro sd p hmem hpath hp hbf
    exact deleteSlideImages_removes f slides w sd p hall hnd hmem hpath hp hbf

/-- Witness for C4: deleting the sample record removes asset "p1", succeeds,
and a following owner `get` finds nothing. -/
theorem delete_removes_record_and_assets_witness :
    (delete_presentation sampleWorld noFail "id1" "alice").2 = true ∧
    alookup (delete_presentation sampleWorld noFail "id1"
        "alice").1.presentations "id1" = none ∧
    get_presentation (delete_presentation sampleWorld noFail "id1"
        "alice").1 noFail "id1" (some "alice") = none ∧
    "p1" ∉ (delete_presentation sampleWorld noFail "id1" "alice").1.assets := by
  obtain ⟨h1, h2, h3, h4⟩ := delete_removes_record_and_assets sampleWorld
    noFail "id1" "alice" sampleDoc [.dict sampleSlide]
    rfl rfl (by rfl) (by rfl) (by rfl) (by rfl) (by decide)
  exact ⟨h1, h2, h3,
    h4 sampleSlide "p1" (List.mem_cons_self _ _) (by rfl) (by decide) (by rfl)⟩

theorem createdAtInt_summaryDoc (d : Doc) (th : Value) :
    createdAtInt (summaryDoc d th) = createdAtInt d := rfl

/-- C5: `get_user_presentations` returns at most `limit` summaries, ordered
by `created_at` descending, containing only records whose stored `user_id`
equals the queried owner; each summary's thumbnail is the first slide's
`image_url` when the record has at least one slide and `None` otherwise; and
on a backend failure it returns the empty list instead of raising. -/
theorem list_by_owner_semantics (w : World) (f : Faults) (user_id : String)
    (limit : Nat) :
    (f.queryFails = true → get_user_presentations w f user_id limit = []) ∧
    ((∀ d ∈ queryByOwner w.presentations user_id limit, thumbOk d = true) →
      (get_user_presentations w f user_id limit).length ≤ limit ∧
      (get_user_presentations w f user_id limit).Pairwise
        (fun a b => createdAtInt b ≤ createdAtInt a) ∧
      (∀ s ∈ get_user_presentations w f user_id limit, ∃ d,
        d ∈ w.presentations.map Prod.snd ∧
        pyEqStr (dget d "user_id") user_id = true ∧
        s = summaryDoc d (thumbDefault d) ∧
        (∀ sd rest, dget d "slides" = .list (.dict sd :: rest) →
          dget s "thumbnail" = dget sd "image_url") ∧
        ((dget d "slides").truthy = false → dget s "thumbnail" = .vnone))) := by
  constructor
  · intro h
    unfold get_user_presentations
    simp [h]
  · intro hWF
    cases hq : f.queryFails
    · have hmap := mapM_summarizeE_ok _ hWF
      unfold get_user_presentations
      simp only [hq, Bool.false_eq_true, if_false, hmap]
      refine ⟨?_, ?_, ?_⟩
      · rw [List.length_map]
        unfold queryByOwner
        rw [List.length_take]
        exact min_le_left _ _
      · rw [List.pairwise_map]
        have hsorted := List.sorted_insertionSort createdDescR
          ((w.presentations.map Prod.snd).filter
            (fun d => pyEqStr (dget d "user_id") user_id && hasIntCreated d))
        exact hsorted.sublist (List.take_sublist _ _)
      · intro s hs
        rw [List.mem_map] at hs
        obtain ⟨d, hdq, rfl⟩ := hs
        have hd1 : d ∈ List.insertionSort createdDescR
            ((w.presentations.map Prod.snd).filter
              (fun x => pyEqStr (dget x "user_id") user_id
                && hasIntCreated x)) :=
          List.mem_of_mem_take hdq
        have hd2 := (List.perm_insertionSort createdDescR _).mem_iff.mp hd1
        have hd3 := List.mem_filter.mp hd2
        have hp := (Bool.and_eq_true _ _).mp hd3.2
        refine ⟨d, hd3.1, hp.1, rfl, ?_, ?_⟩
        · intro sd rest h
          show thumbDefault d = dget sd "image_url"
          unfold thumbDefault thumbnailE
          rw [h]
          simp [Value.truthy]
        · intro h
          show thumbDefault d = .vnone
          unfold thumbDefault thumbnailE
          rw [h]
          simp
    · unfold get_user_presentations
      simp [hq]

/-- Witness for C5: at the sample world the listing for "alice" has one
summary (with thumbnail from the first slide), is trivially sorted, is within
the limit, and an all-faults backend yields the empty list. -/
theorem list_by_owner_semantics_witness :
    get_user_presentations sampleWorld allFail "alice" 10 = [] ∧
    (get_user_presentations sampleWorld noFail "alice" 10).length ≤ 10 ∧
    (get_user_presentations sampleWorld noFail "alice" 10).Pairwise
      (fun a b => createdAtInt b ≤ createdAtInt a) ∧
    (∀ s ∈ get_user_presentations sampleWorld noFail "alice" 10, ∃ d,
      d ∈ sampleWorld.presentations.map Prod.snd ∧
      pyEqStr (dget d "user_id") "alice" = true ∧
      s = summaryDoc d (thumbDefault d) ∧
      (∀ sd rest, dget d "slides" = .list (.dict sd :: rest) →
        dget s "thumbnail" = dget sd "image_url") ∧
      ((dget d "slides").truthy = false → dget s "thumbnail" = .vnone)) := by
  have hWF : ∀ d ∈ queryByOwner sampleWorld.presentations "alice" 10,
      thumbOk d = true := by
    intro d hd
    rw [show queryByOwner sampleWorld.presentations "alice" 10 = [sampleDoc]
      from rfl] at hd
    rw [List.mem_singleton.mp hd]
    rfl
  obtain ⟨h1, h2, h3⟩ := (list_by_owner_semantics sampleWorld noFail
    "alice" 10).2 hWF
  exact ⟨(list_by_owner_semantics sampleWorld allFail "alice" 10).1 rfl,
    h1, h2, h3⟩

/-- C6: with every backend call raising (`allFail`), each read/mutate
operation of the facade except `create_presentation` swallows the exception
and returns its type-appropriate sentinel — `none` for lookups, `false` for
booleans, the empty list for the listing — while `create_presentation`, the
only operation typed `Except`, propagates the error to its caller. -/
theorem facade_error_boundaries (w : World) (id_token uid path dest ct : String)
    (bytes : List Nat) (ppt_id req : String) (updates : Doc) (now : Int)
    (limit : Nat) (fresh : String) (presentation_data : Doc) :
    verify_token w allFail id_token = none ∧
    get_user w allFail uid = none ∧
    create_custom_token allFail uid = none ∧
    (upload_image w allFail path dest).2 = none ∧
    (upload_image_from_bytes w allFail bytes dest ct).2 = none ∧
    (delete_image w allFail path).2 = false ∧
    get_presentation w allFail ppt_id (some req) = none ∧
    get_presentation w allFail ppt_id none = none ∧
    (update_presentation w allFail ppt_id req updates now).2.2 = false ∧
    (delete_presentation w allFail ppt_id req).2 = false ∧
    get_user_presentations w allFail req limit = [] ∧
    create_presentation w allFail fresh now req presentation_data
      = .error () := by
  refine ⟨rfl, rfl, rfl, rfl, rfl, ?_, rfl, rfl, rfl, rfl, rfl, ?_⟩
  · unfold delete_image allFail
    simp
  · unfold create_presentation
    cases h : pyLenE (dgetD presentation_data "slides" (.list [])) with
    | error e => rfl
    | ok n => rfl
